import Mathlib

/-!
Verification of the Handradi file-storage server (cmd/server/server.go and
internal/db/db.go) against its natural-language specification.  Go strings
are byte sequences and are modelled as lists of naturals; the HMAC-SHA256
primitive is modelled as an abstract function parameter, and the filesystem
and client registry are modelled as explicit state values.
-/

namespace Handradi

abbrev Bytes := List Nat

/-- ASCII bytes of a string literal (all literals in the server are ASCII,
where Go rune-level and byte-level views coincide). -/
def str (s : String) : Bytes := s.data.map (fun c => c.toNat)

def slash : Nat := 47
def dot : Nat := 46
def bar : Nat := 124
def padCh : Nat := 61
def dash : Nat := 45
def plusCh : Nat := 43

/-! Model of strings.Split(s, sep) for a one-byte separator, as used by
presignedUploadHandler with separator the byte 124. -/

def splitByte (d : Nat) : Bytes → List Bytes
  | [] => [[]]
  | c :: rest =>
    if c = d then [] :: splitByte d rest
    else
      match splitByte d rest with
      | [] => [[c]]
      | t :: ts => (c :: t) :: ts

/-! Model of encoding/base64 URLEncoding (RFC 4648 URL alphabet, with the
pad byte 61).  DecodeString returns the bytes decoded so far together with
a success flag; on bad input Go returns the partially decoded prefix and a
CorruptInputError, which the flag models. -/

def b64chr (v : Nat) : Nat :=
  if v < 26 then 65 + v
  else if v < 52 then 97 + (v - 26)
  else if v < 62 then 48 + (v - 52)
  else if v = 62 then 45
  else 95

def b64val (c : Nat) : Option Nat :=
  if 65 ≤ c ∧ c ≤ 90 then some (c - 65)
  else if 97 ≤ c ∧ c ≤ 122 then some (26 + (c - 97))
  else if 48 ≤ c ∧ c ≤ 57 then some (52 + (c - 48))
  else if c = 45 then some 62
  else if c = 95 then some 63
  else none

def base64urlEncode : Bytes → Bytes
  | [] => []
  | [b1] => [b64chr (b1 / 4), b64chr (b1 % 4 * 16), padCh, padCh]
  | [b1, b2] => [b64chr (b1 / 4), b64chr (b1 % 4 * 16 + b2 / 16), b64chr (b2 % 16 * 4), padCh]
  | b1 :: b2 :: b3 :: rest =>
      b64chr (b1 / 4) :: b64chr (b1 % 4 * 16 + b2 / 16) ::
        b64chr (b2 % 16 * 4 + b3 / 64) :: b64chr (b3 % 64) :: base64urlEncode rest

def base64urlDecode : Bytes → (Bytes × Bool)
  | [] => ([], true)
  | c1 :: c2 :: c3 :: c4 :: rest =>
    match b64val c1, b64val c2 with
    | some v1, some v2 =>
      if c3 = padCh then
        if c4 = padCh ∧ rest = [] then ([v1 * 4 + v2 / 16], true) else ([], false)
      else
        match b64val c3 with
        | some v3 =>
          if c4 = padCh then
            if rest = [] then ([v1 * 4 + v2 / 16, v2 % 16 * 16 + v3 / 4], true)
            else ([], false)
          else
            match b64val c4 with
            | some v4 =>
              let t := base64urlDecode rest
              ((v1 * 4 + v2 / 16) :: (v2 % 16 * 16 + v3 / 4) :: (v3 % 4 * 64 + v4) :: t.1, t.2)
            | none => ([], false)
        | none => ([], false)
    | _, _ => ([], false)
  | _ => ([], false)

/-! Decimal formatting and parsing: fmt.Sprintf with the d verb, and
strconv.ParseInt(s, 10, 64).  The server ignores the ParseInt error, so the
model returns the value Go leaves in the variable: 0 on a syntax error and
the clamped int64 bound on a range error. -/

def natDigitsAux : Nat → Nat → Bytes
  | 0, _ => []
  | fuel + 1, n => if n < 10 then [48 + n] else natDigitsAux fuel (n / 10) ++ [48 + n % 10]

def natDecimal (n : Nat) : Bytes := natDigitsAux (n + 1) n

def formatInt (i : Int) : Bytes :=
  if i < 0 then dash :: natDecimal (-i).toNat else natDecimal i.toNat

def isDigit (c : Nat) : Bool := decide (48 ≤ c ∧ c ≤ 57)

def digitsVal (ds : Bytes) : Nat := ds.foldl (fun acc c => acc * 10 + (c - 48)) 0

/-- Value of the expression v in Go after the statement
v, _ := strconv.ParseInt(string(s), 10, 64): 0 on syntax error, clamped
int64 bound on range error, the parsed value otherwise. -/
def parseInt64Go (s : Bytes) : Int :=
  match s with
  | [] => 0
  | c :: rest =>
    let neg := c = dash
    let digits := if c = plusCh ∨ c = dash then rest else c :: rest
    if digits = [] then 0
    else if digits.all isDigit then
      let n := digitsVal digits
      if neg then (if (n : Int) > 2 ^ 63 then -(2 ^ 63) else -(n : Int))
      else (if (n : Int) ≥ 2 ^ 63 then 2 ^ 63 - 1 else (n : Int))
    else 0

/-! Models of path/filepath on unix: Clean, Base, Dir and Join.  Clean is
given by its standard component-stack semantics: split on the separator,
drop empty and single-dot components, let a dotdot component pop a
poppable previous component (at the root it disappears, in a relative path
with nothing to pop it is kept). -/

def joinSlash : List Bytes → Bytes
  | [] => []
  | [x] => x
  | x :: y :: rest => x ++ slash :: joinSlash (y :: rest)

def splitSlash (p : Bytes) : List Bytes := splitByte slash p

def cleanFoldRev (rooted : Bool) : List Bytes → List Bytes → List Bytes
  | acc, [] => acc
  | [], c :: cs =>
    if c = [dot, dot] then cleanFoldRev rooted (if rooted then [] else [c]) cs
    else cleanFoldRev rooted [c] cs
  | l :: acc2, c :: cs =>
    if c = [dot, dot] then
      (if l = [dot, dot] then cleanFoldRev rooted (c :: l :: acc2) cs
       else cleanFoldRev rooted acc2 cs)
    else cleanFoldRev rooted (c :: l :: acc2) cs

def cleanAssemble (rooted : Bool) (comps : List Bytes) : Bytes :=
  if (cleanFoldRev rooted [] comps).reverse = [] then (if rooted then [slash] else [dot])
  else (if rooted then [slash] else []) ++ joinSlash (cleanFoldRev rooted [] comps).reverse

def cleanPath (p : Bytes) : Bytes :=
  if p = [] then [dot]
  else cleanAssemble (decide (p.head? = some slash))
    ((splitSlash p).filter (fun c => if c = [] ∨ c = [dot] then false else true))

/-- Model of filepath.Base: empty input gives a dot, trailing separators are
stripped, the part after the last separator is kept, an all-separator input
gives the separator. -/
def stripTrailingSlashesRev (p : Bytes) : Bytes := p.reverse.dropWhile (fun c => c == slash)

def filepathBase (p : Bytes) : Bytes :=
  if p = [] then [dot]
  else if ((stripTrailingSlashesRev p).takeWhile (fun c => !(c == slash))).reverse = []
    then [slash]
  else ((stripTrailingSlashesRev p).takeWhile (fun c => !(c == slash))).reverse

/-- Model of filepath.Dir: Clean of the prefix up to and including the last
separator (Clean of the empty string when there is none). -/
def filepathDir (p : Bytes) : Bytes :=
  cleanPath ((p.reverse.dropWhile (fun c => !(c == slash))).reverse)

/-- Model of filepath.Join for two elements: skip a leading empty element,
otherwise Clean of the separator-joined elements. -/
def joinPath2 (a b : Bytes) : Bytes :=
  if a = [] then (if b = [] then [] else cleanPath b)
  else cleanPath (a ++ slash :: b)

/-- Model of filepath.Join for three elements with a nonempty first element,
as called in uploadHandler, downloadHandler and deleteHandler. -/
def joinPath3 (a b c : Bytes) : Bytes := cleanPath (a ++ slash :: b ++ slash :: c)

/-! internal/db: the client registry.  sql.QueryRow over the unique
client_id column is modelled as a first-match lookup in a list of rows;
sql.ErrNoRows is the none case. -/

structure User where
  clientId : Bytes
  apiKey : Bytes
  allowedOrigin : Bytes
deriving DecidableEq

abbrev Registry := List User

def CheckAuth (reg : Registry) (clientID apiKey : Bytes) : Option Bytes :=
  (reg.find? (fun u => u.clientId == clientID && u.apiKey == apiKey)).map (fun u => u.allowedOrigin)

def CheckOrigin (reg : Registry) (clientID : Bytes) : Option Bytes :=
  (reg.find? (fun u => u.clientId == clientID)).map (fun u => u.allowedOrigin)

/-! sanitizeClient.  The Go source maps runes, keeping lowercase and
uppercase letters, digits, underscore and hyphen and dropping everything
else; since every kept rune is ASCII and every byte of a multi-byte UTF-8
rune is at least 128, the rune-level map equals this byte-level filter on
every byte string. -/

def allowedClientChar (c : Nat) : Bool :=
  decide ((97 ≤ c ∧ c ≤ 122) ∨ (65 ≤ c ∧ c ≤ 90) ∨ (48 ≤ c ∧ c ≤ 57) ∨ c = 95 ∨ c = 45)

def sanitizeClient (s : Bytes) : Bytes := s.filter allowedClientChar

/-! The middleware.  A gate result records the CORS headers written (none
when the gate errors before writing them, as withAuthAndCORS does), the
outcome, and whether the wrapped handler was invoked. -/

inductive Method
  | GET | POST | PUT | DELETE | OPTIONS
deriving DecidableEq

structure CorsHeaders where
  allowOrigin : Bytes
  allowMethods : Bytes
  allowHeaders : Bytes
deriving DecidableEq

inductive GateOutcome
  | missingParams
  | unauthorized
  | noContent
  | passThrough
deriving DecidableEq

structure GateResult where
  headers : Option CorsHeaders
  outcome : GateOutcome
  invoked : Bool
deriving DecidableEq

def withAuthAndCORS (reg : Registry) (method : Method) (clientParam apiKey : Bytes) : GateResult :=
  let clientID := sanitizeClient clientParam
  if clientID = [] ∨ apiKey = [] then ⟨none, .missingParams, false⟩
  else
    match CheckAuth reg clientID apiKey with
    | none => ⟨none, .unauthorized, false⟩
    | some allowedOrigin =>
      let hs : CorsHeaders :=
        ⟨allowedOrigin, str ("GET, POST, DELETE, OPTIONS"), str ("Content-Type, x-api-key")⟩
      if method = .OPTIONS then ⟨some hs, .noContent, false⟩
      else ⟨some hs, .passThrough, true⟩

def withPublicCORS (method : Method) : GateResult :=
  let hs : CorsHeaders := ⟨str ("*"), str ("GET, PUT, OPTIONS"), str ("Content-Type")⟩
  if method = .OPTIONS then ⟨some hs, .noContent, false⟩
  else ⟨some hs, .passThrough, true⟩

/-! Filesystem model: the set of existing directories plus the stored file
contents.  os.Create(p) succeeds when the parent directory of p exists and
p is not itself a directory (an existing regular file is truncated, so it
does not block creation); os.MkdirAll(dir) creates dir and its ancestors. -/

structure FS where
  dirs : List Bytes
  files : Bytes → Option Bytes

def FS.dirExists (fs : FS) (p : Bytes) : Bool := decide (p ∈ fs.dirs)

def FS.createOk (fs : FS) (p : Bytes) : Bool :=
  fs.dirExists (filepathDir p) && !fs.dirExists p

def listPrefixes : List Bytes → List (List Bytes)
  | [] => []
  | x :: xs => [x] :: (listPrefixes xs).map (fun l => x :: l)

def FS.mkdirAll (fs : FS) (dir : Bytes) : FS :=
  ⟨(listPrefixes (splitSlash dir)).map joinSlash ++ fs.dirs, fs.files⟩

/-- saveFile: filepath.Join the directory and filename, os.Create, write the
content; returns the final path, or none when the create fails. -/
def saveFile (fs : FS) (dir filename content : Bytes) : Option Bytes :=
  let filePath := joinPath2 dir filename
  if fs.createOk filePath then some filePath else none

def storageRoot : Bytes := str ("./storage")

/-! uploadHandler.  The request body is an Option: none models an io.ReadAll
failure.  MkdirAll is modelled as succeeding (its failure modes are
OS-level permission or file-collision conditions outside the model). -/

inductive UploadOutcome
  | badRequest
  | bodyReadError
  | createError
  | saved (path content : Bytes)
deriving DecidableEq

def uploadHandler (fs : FS) (client filename : Bytes) (body : Option Bytes) : UploadOutcome :=
  let c := sanitizeClient client
  let f := filepathBase filename
  if c = [] ∨ f = [] then .badRequest
  else
    let dir := joinPath2 storageRoot c
    let fs2 := fs.mkdirAll dir
    match body with
    | none => .bodyReadError
    | some content =>
      match saveFile fs2 dir f content with
      | some p => .saved p content
      | none => .createError

/-! downloadHandler.  imgDecode models the image decoding of
imaging.Open (none on a non-image); imaging.Open fails when the file is
missing or undecodable.  http.ServeFile answers 404 Not Found on a missing
file.  The MIME detection header and the resize arithmetic of the imaging
library are collaborators outside the model. -/

inductive DLOutcome
  | badRequest
  | openError
  | resizedPNG
  | served (content : Bytes)
  | notFound
deriving DecidableEq

def downloadHandler (imgDecode : Bytes → Option Bytes) (fs : FS)
    (client filename widthStr heightStr : Bytes) : DLOutcome :=
  let c := sanitizeClient client
  let f := filepathBase filename
  if c = [] ∨ f = [] then .badRequest
  else
    let filePath := joinPath3 storageRoot c f
    if widthStr ≠ [] ∨ heightStr ≠ [] then
      match fs.files filePath with
      | none => .openError
      | some content =>
        match imgDecode content with
        | none => .openError
        | some _ => .resizedPNG
    else
      match fs.files filePath with
      | some content => .served content
      | none => .notFound

/-! The presign issuer and verifier.  The HMAC-SHA256 keyed with the
PRESIGN_SECRET environment variable is an abstract function from messages
to tag bytes. -/

def presignMsg (filePath : Bytes) (expiresAt : Int) : Bytes :=
  filePath ++ bar :: formatInt expiresAt

def presignToken (hmacF : Bytes → Bytes) (filePath : Bytes) (expiresAt : Int) : Bytes :=
  base64urlEncode (presignMsg filePath expiresAt ++ bar :: hmacF (presignMsg filePath expiresAt))

def presignPath (client filename : Bytes) : Bytes :=
  joinPath2 (joinPath2 storageRoot (sanitizeClient client)) (filepathBase filename)

/-- presignHandler: sanitize the parameters, build the storage path, set the
expiry five minutes from now, and return the signed encoded token (the
handler wraps it in a relative URL; the token is the payload). -/
def presignHandler (hmacF : Bytes → Bytes) (now : Int) (client filename : Bytes) : Option Bytes :=
  let c := sanitizeClient client
  let f := filepathBase filename
  if c = [] ∨ f = [] then none
  else some (presignToken hmacF (presignPath client filename) (now + 300))

/-! presignedUploadHandler.  The source writes the 400 decode error but is
missing a return, so execution continues with the partially decoded bytes:
decodeErrorThen records the written error followed by the rest of the run.
Indexing parts with fewer than three fields panics (index out of range).
The ParseInt error on the expiry field is discarded. -/

inductive PUOutcome
  | decodeErrorThen (k : PUOutcome)
  | panicked
  | expired
  | bodyReadError
  | invalidSignature
  | storageError
  | saved (path content : Bytes)
deriving DecidableEq

def puCore (hmacF : Bytes → Bytes) (fs : FS) (now : Int) (payload : Bytes)
    (body : Option Bytes) : PUOutcome :=
  match splitByte bar payload with
  | filePath :: expiresStr :: sigString :: _ =>
    let expiresAt := parseInt64Go expiresStr
    if now > expiresAt then .expired
    else
      match body with
      | none => .bodyReadError
      | some fileContent =>
        let expectedSig := hmacF (presignMsg filePath expiresAt)
        if sigString = expectedSig then
          match saveFile fs (filepathDir filePath) (filepathBase filePath) fileContent with
          | some sp => .saved sp fileContent
          | none => .storageError
        else .invalidSignature
  | _ => .panicked

def presignedUploadHandler (hmacF : Bytes → Bytes) (fs : FS) (now : Int) (q : Bytes)
    (body : Option Bytes) : PUOutcome :=
  let d := base64urlDecode q
  if d.2 then puCore hmacF fs now d.1 body
  else .decodeErrorThen (puCore hmacF fs now d.1 body)

/-- The write a fully verified token leads to: saveFile at the directory and
base of the token path, a failing create being the storage error. -/
def writeOutcome (fs : FS) (p content : Bytes) : PUOutcome :=
  match saveFile fs (filepathDir p) (filepathBase p) content with
  | some sp => .saved sp content
  | none => .storageError

/-! Concrete fixtures used by the closed evaluation theorems below: a model
MAC returning a fixed one-byte tag, small filesystems, and a one-row
registry. -/

def hmac0 : Bytes → Bytes := fun _ => [65]

def fs0 : FS := ⟨[], fun _ => none⟩

def fs1 : FS := ⟨[str ("storage/alice")], fun _ => none⟩

def fs2 : FS := ⟨[str ("/etc/cron.d")], fun _ => none⟩

def reg0 : Registry := [⟨str ("alice"), str ("key1"), str ("http://shop.example")⟩]

def startsWithB (pre s : Bytes) : Bool := s.take pre.length == pre

/-! Lemmas about the base64 model. -/

theorem b64_tbl : ∀ v : Fin 64, b64val (b64chr v.1) = some v.1 ∧ ¬ b64chr v.1 = padCh := by
  decide

theorem b64val_chr {v : Nat} (h : v < 64) : b64val (b64chr v) = some v :=
  (b64_tbl ⟨v, h⟩).1

theorem b64chr_ne_pad {v : Nat} (h : v < 64) : ¬ b64chr v = padCh :=
  (b64_tbl ⟨v, h⟩).2

theorem b64_roundtrip : ∀ bs : Bytes, (∀ b ∈ bs, b < 256) →
    base64urlDecode (base64urlEncode bs) = (bs, true)
  | [], _ => rfl
  | [b1], h => by
    have hb1 : b1 < 256 := h b1 (by simp)
    have e1 : b1 / 4 < 64 := by omega
    have e2 : b1 % 4 * 16 < 64 := by omega
    simp only [base64urlEncode, base64urlDecode, b64val_chr e1, b64val_chr e2,
      if_pos rfl, and_self, if_true, Prod.mk.injEq, and_true, List.cons.injEq]
    omega
  | [b1, b2], h => by
    have hb1 : b1 < 256 := h b1 (by simp)
    have hb2 : b2 < 256 := h b2 (by simp)
    have e1 : b1 / 4 < 64 := by omega
    have e2 : b1 % 4 * 16 + b2 / 16 < 64 := by omega
    have e3 : b2 % 16 * 4 < 64 := by omega
    simp only [base64urlEncode, base64urlDecode, b64val_chr e1, b64val_chr e2, b64val_chr e3,
      if_neg (b64chr_ne_pad e3), if_pos rfl, if_true, Prod.mk.injEq, and_true, List.cons.injEq]
    omega
  | b1 :: b2 :: b3 :: b4 :: rest, h => by
    have hb1 : b1 < 256 := h b1 (by simp)
    have hb2 : b2 < 256 := h b2 (by simp)
    have hb3 : b3 < 256 := h b3 (by simp)
    have e1 : b1 / 4 < 64 := by omega
    have e2 : b1 % 4 * 16 + b2 / 16 < 64 := by omega
    have e3 : b2 % 16 * 4 + b3 / 64 < 64 := by omega
    have e4 : b3 % 64 < 64 := by omega
    have ih := b64_roundtrip (b4 :: rest) (fun b hb => h b (by simp [List.mem_cons] at hb ⊢; tauto))
    simp only [base64urlEncode, base64urlDecode, b64val_chr e1, b64val_chr e2, b64val_chr e3,
      b64val_chr e4, if_neg (b64chr_ne_pad e3), if_neg (b64chr_ne_pad e4), ih,
      Prod.mk.injEq, and_true]
    simp only [List.cons.injEq, and_true]
    omega
  | [b1, b2, b3], h => by
    have hb1 : b1 < 256 := h b1 (by simp)
    have hb2 : b2 < 256 := h b2 (by simp)
    have hb3 : b3 < 256 := h b3 (by simp)
    have e1 : b1 / 4 < 64 := by omega
    have e2 : b1 % 4 * 16 + b2 / 16 < 64 := by omega
    have e3 : b2 % 16 * 4 + b3 / 64 < 64 := by omega
    have e4 : b3 % 64 < 64 := by omega
    simp only [base64urlEncode, base64urlDecode, b64val_chr e1, b64val_chr e2, b64val_chr e3,
      b64val_chr e4, if_neg (b64chr_ne_pad e3), if_neg (b64chr_ne_pad e4),
      Prod.mk.injEq, and_true]
    simp only [List.cons.injEq, and_true]
    omega

/-! Lemmas about splitByte. -/

theorem splitByte_ne_nil (d : Nat) : ∀ l : Bytes, splitByte d l ≠ []
  | [] => by simp [splitByte]
  | c :: rest => by
    simp only [splitByte]
    by_cases hc : c = d
    · simp [hc]
    · simp only [if_neg hc]
      rcases h : splitByte d rest with _ | ⟨t, ts⟩
      · exact absurd h (splitByte_ne_nil d rest)
      · simp

theorem splitByte_not_mem {d : Nat} : ∀ {l : Bytes}, d ∉ l → splitByte d l = [l]
  | [], _ => rfl
  | c :: rest, h => by
    simp only [List.mem_cons, not_or] at h
    obtain ⟨h1, h2⟩ := h
    have hc : ¬ c = d := fun e => h1 e.symm
    simp [splitByte, if_neg hc, splitByte_not_mem h2]

theorem splitByte_append {d : Nat} : ∀ {a : Bytes} (r : Bytes), d ∉ a →
    splitByte d (a ++ d :: r) = a :: splitByte d r
  | [], r, _ => by simp [splitByte]
  | c :: a2, r, h => by
    simp only [List.mem_cons, not_or] at h
    obtain ⟨h1, h2⟩ := h
    have hc : ¬ c = d := fun e => h1 e.symm
    simp [List.cons_append, splitByte, if_neg hc, splitByte_append (a := a2) r h2]

/-! Lemmas about decimal formatting and the lenient ParseInt model. -/

theorem natDigitsAux_range : ∀ (fuel n : Nat), ∀ c ∈ natDigitsAux fuel n, 48 ≤ c ∧ c ≤ 57
  | 0, _ => by simp [natDigitsAux]
  | fuel + 1, n => by
    simp only [natDigitsAux]
    by_cases h : n < 10
    · simp only [if_pos h, List.mem_singleton]
      omega
    · simp only [if_neg h]
      intro c hc
      rcases List.mem_append.mp hc with h1 | h2
      · exact natDigitsAux_range fuel (n / 10) c h1
      · simp only [List.mem_singleton] at h2
        omega

theorem natDigitsAux_ne_nil (fuel n : Nat) (h : 0 < fuel) : natDigitsAux fuel n ≠ [] := by
  cases fuel with
  | zero => omega
  | succ fuel =>
    simp only [natDigitsAux]
    by_cases h10 : n < 10
    · simp [h10]
    · rw [if_neg h10]
      simp

theorem digitsVal_natDigitsAux : ∀ (fuel n : Nat), n < fuel →
    digitsVal (natDigitsAux fuel n) = n
  | 0, n, h => absurd h (by omega)
  | fuel + 1, n, h => by
    simp only [natDigitsAux]
    by_cases h10 : n < 10
    · simp only [if_pos h10, digitsVal, List.foldl_cons, List.foldl_nil]
      omega
    · simp only [if_neg h10]
      have hlt : n / 10 < fuel := by omega
      have ih := digitsVal_natDigitsAux fuel (n / 10) hlt
      simp only [digitsVal] at ih ⊢
      rw [List.foldl_append, ih]
      simp only [List.foldl_cons, List.foldl_nil]
      omega

theorem natDecimal_range (n : Nat) : ∀ c ∈ natDecimal n, 48 ≤ c ∧ c ≤ 57 :=
  natDigitsAux_range (n + 1) n

theorem natDecimal_ne_nil (n : Nat) : natDecimal n ≠ [] :=
  natDigitsAux_ne_nil (n + 1) n (by omega)

theorem digitsVal_natDecimal (n : Nat) : digitsVal (natDecimal n) = n :=
  digitsVal_natDigitsAux (n + 1) n (by omega)

theorem formatInt_range (i : Int) : ∀ c ∈ formatInt i, 45 ≤ c ∧ c ≤ 57 := by
  simp only [formatInt]
  by_cases h : i < 0
  · simp only [if_pos h, List.mem_cons]
    intro c hc
    rcases hc with h1 | h2
    · simp [h1, dash]
    · have := natDecimal_range (-i).toNat c h2
      omega
  · simp only [if_neg h]
    intro c hc
    have := natDecimal_range i.toNat c hc
    omega

theorem bar_not_mem_formatInt (i : Int) : bar ∉ formatInt i := by
  intro h
  have := formatInt_range i bar h
  simp [bar] at this

theorem formatInt_lt_256 (i : Int) : ∀ c ∈ formatInt i, c < 256 := by
  intro c hc
  have := formatInt_range i c hc
  omega

theorem natDecimal_all_digits (n : Nat) : (natDecimal n).all isDigit = true := by
  rw [List.all_eq_true]
  intro c hc
  have := natDecimal_range n c hc
  simp only [isDigit, decide_eq_true_eq]
  omega

theorem parseInt64Go_formatInt (E : Int) (h1 : -(2 ^ 63) ≤ E) (h2 : E < 2 ^ 63) :
    parseInt64Go (formatInt E) = E := by
  by_cases hE : E < 0
  · have hm : ((-E).toNat : Int) = -E := by omega
    simp only [formatInt, if_pos hE]
    simp only [parseInt64Go]
    simp only [or_true, if_true]
    rw [if_neg (natDecimal_ne_nil (-E).toNat)]
    rw [if_pos (natDecimal_all_digits (-E).toNat)]
    rw [digitsVal_natDecimal]
    rw [if_neg (by omega : ¬ (((-E).toNat : Int) > 2 ^ 63))]
    omega
  · have hn : (E.toNat : Int) = E := by omega
    simp only [formatInt, if_neg hE]
    obtain ⟨c, rest, hcr⟩ := List.exists_cons_of_ne_nil (natDecimal_ne_nil E.toNat)
    have hcd : 48 ≤ c ∧ c ≤ 57 := natDecimal_range E.toNat c (by rw [hcr]; simp)
    rw [hcr]
    simp only [parseInt64Go]
    have hns : ¬ (c = plusCh ∨ c = dash) := by
      simp only [plusCh, dash]
      omega
    rw [if_neg hns]
    rw [if_neg (by simp : ¬ (c :: rest = []))]
    rw [if_pos (by rw [← hcr]; exact natDecimal_all_digits E.toNat)]
    rw [show digitsVal (c :: rest) = E.toNat by rw [← hcr]; exact digitsVal_natDecimal E.toNat]
    rw [if_neg (by omega : ¬ ((E.toNat : Int) ≥ 2 ^ 63))]
    rw [if_neg (by simp only [dash]; omega : ¬ (c = dash))]
    omega

/-! Character-class facts about sanitized client identifiers. -/

theorem allowedClientChar_facts {c : Nat} (h : allowedClientChar c = true) :
    c ≠ slash ∧ c ≠ dot ∧ c ≠ bar ∧ c < 256 := by
  simp only [allowedClientChar, decide_eq_true_eq] at h
  simp only [slash, dot, bar]
  omega

theorem sanitizeClient_allowed {s : Bytes} : ∀ b ∈ sanitizeClient s, allowedClientChar b = true :=
  fun _ hb => List.of_mem_filter hb

theorem slash_not_mem_of_allowed {c0 : Bytes} (hall : ∀ b ∈ c0, allowedClientChar b = true) :
    slash ∉ c0 :=
  fun h => ((allowedClientChar_facts (hall _ h)).1 rfl)

theorem bar_not_mem_of_allowed {c0 : Bytes} (hall : ∀ b ∈ c0, allowedClientChar b = true) :
    bar ∉ c0 :=
  fun h => ((allowedClientChar_facts (hall _ h)).2.2.1 rfl)

theorem ne_dot_of_allowed {c0 : Bytes} (hall : ∀ b ∈ c0, allowedClientChar b = true) :
    ¬ c0 = [dot] := by
  intro h
  have : dot ∈ c0 := by rw [h]; simp
  exact (allowedClientChar_facts (hall _ this)).2.1 rfl

theorem ne_dotdot_of_allowed {c0 : Bytes} (hall : ∀ b ∈ c0, allowedClientChar b = true) :
    ¬ c0 = [dot, dot] := by
  intro h
  have : dot ∈ c0 := by rw [h]; simp
  exact (allowedClientChar_facts (hall _ this)).2.1 rfl

/-! Evaluation lemmas for the path model on the shapes the handlers build. -/

/-! Evaluation of the clean-fold on the short component lists the handlers
produce. -/

theorem cleanAssemble_two {a b : Bytes} (ha : ¬ a = [dot, dot]) (hb : ¬ b = [dot, dot]) :
    cleanAssemble false [a, b] = a ++ slash :: b := by
  rw [cleanAssemble]
  rw [show cleanFoldRev false [] [a, b] = [b, a] from by
    rw [cleanFoldRev, if_neg ha, cleanFoldRev, if_neg hb]
    rfl]
  simp [joinSlash]

theorem cleanAssemble_three {a b c : Bytes} (ha : ¬ a = [dot, dot]) (hb : ¬ b = [dot, dot])
    (hc : ¬ c = [dot, dot]) :
    cleanAssemble false [a, b, c] = a ++ slash :: b ++ slash :: c := by
  rw [cleanAssemble]
  rw [show cleanFoldRev false [] [a, b, c] = [c, b, a] from by
    rw [cleanFoldRev, if_neg ha, cleanFoldRev, if_neg hb, cleanFoldRev, if_neg hc]
    rfl]
  simp [joinSlash]

theorem cleanAssemble_dotdot {a b : Bytes} (ha : ¬ a = [dot, dot]) (hb : ¬ b = [dot, dot]) :
    cleanAssemble false [a, b, [dot, dot]] = a := by
  rw [cleanAssemble]
  rw [show cleanFoldRev false [] [a, b, [dot, dot]] = [a] from by
    rw [cleanFoldRev, if_neg ha, cleanFoldRev, if_neg hb, cleanFoldRev, if_pos rfl, if_neg hb]
    rfl]
  simp [joinSlash]

/-! Evaluation of splitSlash on the shapes the handlers build. -/

theorem splitSlash_storage_c {c0 : Bytes} (hsl : slash ∉ c0) :
    splitSlash (str ("storage") ++ slash :: c0) = [str ("storage"), c0] := by
  have h1 := splitByte_append (d := slash) (a := str ("storage")) c0 (by decide)
  rw [splitSlash, h1, splitByte_not_mem hsl]

theorem splitSlash_dot_storage_c {c0 : Bytes} (hsl : slash ∉ c0) :
    splitSlash (dot :: slash :: (str ("storage") ++ slash :: c0)) =
      [[dot], str ("storage"), c0] := by
  have h1 := splitByte_append (d := slash) (a := [dot]) (str ("storage") ++ slash :: c0)
    (by decide)
  simp only [List.cons_append, List.nil_append] at h1
  have h2 := splitByte_append (d := slash) (a := str ("storage")) c0 (by decide)
  rw [splitSlash, h1, h2, splitByte_not_mem hsl]

theorem splitSlash_storage_c_f {c0 f : Bytes} (hsl : slash ∉ c0) (hfs : slash ∉ f) :
    splitSlash (str ("storage") ++ slash :: (c0 ++ slash :: f)) = [str ("storage"), c0, f] := by
  have h1 := splitByte_append (d := slash) (a := str ("storage")) (c0 ++ slash :: f) (by decide)
  have h2 := splitByte_append (d := slash) (a := c0) f hsl
  rw [splitSlash, h1, h2, splitByte_not_mem hfs]

theorem splitSlash_storage_c_slash {c0 : Bytes} (hsl : slash ∉ c0) :
    splitSlash (str ("storage") ++ slash :: (c0 ++ [slash, slash])) =
      [str ("storage"), c0, [], []] := by
  have h1 := splitByte_append (d := slash) (a := str ("storage")) (c0 ++ [slash, slash])
    (by decide)
  have h2 : c0 ++ [slash, slash] = c0 ++ slash :: [slash] := rfl
  have h3 := splitByte_append (d := slash) (a := c0) [slash] hsl
  rw [splitSlash, h1, h2, h3]
  rfl

/-! Filtering of empty and single-dot components. -/

theorem filter_comp_keep {x : Bytes} (h1 : x ≠ []) (h2 : ¬ x = [dot]) (l : List Bytes) :
    List.filter (fun c => if c = [] ∨ c = [dot] then false else true) (x :: l) =
      x :: List.filter (fun c => if c = [] ∨ c = [dot] then false else true) l := by
  rw [List.filter_cons_of_pos]
  show (if x = [] ∨ x = [dot] then false else true) = true
  rw [if_neg]
  rintro (h | h)
  · exact h1 h
  · exact h2 h

theorem filter_comp_drop {x : Bytes} (h : x = [] ∨ x = [dot]) (l : List Bytes) :
    List.filter (fun c => if c = [] ∨ c = [dot] then false else true) (x :: l) =
      List.filter (fun c => if c = [] ∨ c = [dot] then false else true) l := by
  rw [List.filter_cons_of_neg]
  show ¬ (if x = [] ∨ x = [dot] then false else true) = true
  rw [if_pos h]
  simp

/-! The storage paths built by the handlers. -/

theorem joinPath2_storage_client {c0 : Bytes} (hne : c0 ≠ [])
    (hall : ∀ b ∈ c0, allowedClientChar b = true) :
    joinPath2 storageRoot c0 = str ("storage/") ++ c0 := by
  have hsl : slash ∉ c0 := slash_not_mem_of_allowed hall
  have hd1 : ¬ c0 = [dot] := ne_dot_of_allowed hall
  have hd2 : ¬ c0 = [dot, dot] := ne_dotdot_of_allowed hall
  rw [joinPath2, if_neg (by decide : ¬ storageRoot = [])]
  have hp : storageRoot ++ slash :: c0 = dot :: slash :: (str ("storage") ++ slash :: c0) := rfl
  rw [hp, cleanPath, if_neg (by simp)]
  rw [splitSlash_dot_storage_c hsl]
  rw [show decide ((dot :: slash :: (str ("storage") ++ slash :: c0)).head? = some slash)
      = false from by
    apply decide_eq_false
    simp [dot, slash]]
  rw [filter_comp_drop (Or.inr rfl), filter_comp_keep (by decide) (by decide),
    filter_comp_keep hne hd1, List.filter_nil]
  rw [cleanAssemble_two (by decide) hd2]
  rfl

theorem joinPath2_clientdir_file {c0 f : Bytes} (hne : c0 ≠ [])
    (hall : ∀ b ∈ c0, allowedClientChar b = true) (hfs : slash ∉ f)
    (hf1 : f ≠ []) (hf2 : ¬ f = [dot]) (hf3 : ¬ f = [dot, dot]) :
    joinPath2 (str ("storage/") ++ c0) f = str ("storage/") ++ c0 ++ slash :: f := by
  have hsl : slash ∉ c0 := slash_not_mem_of_allowed hall
  have hd1 : ¬ c0 = [dot] := ne_dot_of_allowed hall
  have hd2 : ¬ c0 = [dot, dot] := ne_dotdot_of_allowed hall
  rw [joinPath2, if_neg (by
    intro h
    rw [List.append_eq_nil] at h
    exact absurd h.1 (by decide))]
  have hp : (str ("storage/") ++ c0) ++ slash :: f =
      str ("storage") ++ slash :: (c0 ++ slash :: f) := rfl
  rw [hp, cleanPath, if_neg (by simp)]
  rw [splitSlash_storage_c_f hsl hfs]
  rw [show decide ((str ("storage") ++ slash :: (c0 ++ slash :: f)).head? = some slash)
      = false from by
    apply decide_eq_false
    simp [slash, str]]
  rw [filter_comp_keep (by decide) (by decide), filter_comp_keep hne hd1,
    filter_comp_keep hf1 hf2, List.filter_nil]
  rw [cleanAssemble_three (by decide) hd2 hf3]
  rfl

theorem joinPath2_clientdir_dot {c0 : Bytes} (hne : c0 ≠ [])
    (hall : ∀ b ∈ c0, allowedClientChar b = true) :
    joinPath2 (str ("storage/") ++ c0) [dot] = str ("storage/") ++ c0 := by
  have hsl : slash ∉ c0 := slash_not_mem_of_allowed hall
  have hd1 : ¬ c0 = [dot] := ne_dot_of_allowed hall
  have hd2 : ¬ c0 = [dot, dot] := ne_dotdot_of_allowed hall
  rw [joinPath2, if_neg (by
    intro h
    rw [List.append_eq_nil] at h
    exact absurd h.1 (by decide))]
  have hp : (str ("storage/") ++ c0) ++ slash :: [dot] =
      str ("storage") ++ slash :: (c0 ++ slash :: [dot]) := rfl
  rw [hp, cleanPath, if_neg (by simp)]
  rw [splitSlash_storage_c_f hsl (by simp [slash, dot])]
  rw [show decide ((str ("storage") ++ slash :: (c0 ++ slash :: [dot])).head? = some slash)
      = false from by
    apply decide_eq_false
    simp [slash, str]]
  rw [filter_comp_keep (by decide) (by decide), filter_comp_keep hne hd1,
    filter_comp_drop (Or.inr rfl), List.filter_nil]
  rw [cleanAssemble_two (by decide) hd2]
  rfl

theorem joinPath2_clientdir_dotdot {c0 : Bytes} (hne : c0 ≠ [])
    (hall : ∀ b ∈ c0, allowedClientChar b = true) :
    joinPath2 (str ("storage/") ++ c0) [dot, dot] = str ("storage") := by
  have hsl : slash ∉ c0 := slash_not_mem_of_allowed hall
  have hd1 : ¬ c0 = [dot] := ne_dot_of_allowed hall
  have hd2 : ¬ c0 = [dot, dot] := ne_dotdot_of_allowed hall
  rw [joinPath2, if_neg (by
    intro h
    rw [List.append_eq_nil] at h
    exact absurd h.1 (by decide))]
  have hp : (str ("storage/") ++ c0) ++ slash :: [dot, dot] =
      str ("storage") ++ slash :: (c0 ++ slash :: [dot, dot]) := rfl
  rw [hp, cleanPath, if_neg (by simp)]
  rw [splitSlash_storage_c_f hsl (by simp [slash, dot])]
  rw [show decide ((str ("storage") ++ slash :: (c0 ++ slash :: [dot, dot])).head? = some slash)
      = false from by
    apply decide_eq_false
    simp [slash, str]]
  rw [filter_comp_keep (by decide) (by decide), filter_comp_keep hne hd1,
    filter_comp_keep (by simp) (by simp [dot]), List.filter_nil]
  rw [cleanAssemble_dotdot (by decide) hd2]

theorem joinPath2_clientdir_slash {c0 : Bytes} (hne : c0 ≠ [])
    (hall : ∀ b ∈ c0, allowedClientChar b = true) :
    joinPath2 (str ("storage/") ++ c0) [slash] = str ("storage/") ++ c0 := by
  have hsl : slash ∉ c0 := slash_not_mem_of_allowed hall
  have hd1 : ¬ c0 = [dot] := ne_dot_of_allowed hall
  have hd2 : ¬ c0 = [dot, dot] := ne_dotdot_of_allowed hall
  rw [joinPath2, if_neg (by
    intro h
    rw [List.append_eq_nil] at h
    exact absurd h.1 (by decide))]
  have hp : (str ("storage/") ++ c0) ++ slash :: [slash] =
      str ("storage") ++ slash :: (c0 ++ [slash, slash]) := rfl
  rw [hp, cleanPath, if_neg (by simp)]
  rw [splitSlash_storage_c_slash hsl]
  rw [show decide ((str ("storage") ++ slash :: (c0 ++ [slash, slash])).head? = some slash)
      = false from by
    apply decide_eq_false
    simp [slash, str]]
  rw [filter_comp_keep (by decide) (by decide), filter_comp_keep hne hd1,
    filter_comp_drop (Or.inl rfl), filter_comp_drop (Or.inl rfl), List.filter_nil]
  rw [cleanAssemble_two (by decide) hd2]
  rfl

/-! The verifier on a well-formed token. -/

theorem splitBar_payload {p e r : Bytes} (hp : bar ∉ p) (he : bar ∉ e) :
    splitByte bar (p ++ bar :: (e ++ bar :: r)) = p :: e :: splitByte bar r := by
  rw [splitByte_append _ hp, splitByte_append _ he]

theorem puHandler_token_eq (hmacF : Bytes → Bytes) (fs : FS) (p body : Bytes) (E t : Int)
    (hp256 : ∀ b ∈ p, b < 256) (hpbar : bar ∉ p)
    (hs256 : ∀ b ∈ hmacF (presignMsg p E), b < 256) (hsbar : bar ∉ hmacF (presignMsg p E))
    (hE1 : -(2 ^ 63) ≤ E) (hE2 : E < 2 ^ 63) :
    presignedUploadHandler hmacF fs t (presignToken hmacF p E) (some body) =
      if t > E then PUOutcome.expired else writeOutcome fs p body := by
  have hpayload256 : ∀ b ∈ presignMsg p E ++ bar :: hmacF (presignMsg p E), b < 256 := by
    intro b hb
    rcases List.mem_append.mp hb with h | h
    · rcases List.mem_append.mp h with h1 | h1
      · exact hp256 b h1
      · rcases List.mem_cons.mp h1 with h2 | h2
        · rw [h2]; decide
        · exact formatInt_lt_256 E b h2
    · rcases List.mem_cons.mp h with h2 | h2
      · rw [h2]; decide
      · exact hs256 b h2
  have hdec : base64urlDecode (presignToken hmacF p E) =
      (presignMsg p E ++ bar :: hmacF (presignMsg p E), true) := by
    rw [presignToken]
    exact b64_roundtrip _ hpayload256
  have hsplit : splitByte bar (presignMsg p E ++ bar :: hmacF (presignMsg p E)) =
      p :: formatInt E :: [hmacF (presignMsg p E)] := by
    have h := splitBar_payload (p := p) (e := formatInt E)
      (r := hmacF (presignMsg p E)) hpbar (bar_not_mem_formatInt E)
    rw [splitByte_not_mem hsbar] at h
    rw [presignMsg, List.append_assoc]
    exact h
  simp only [presignedUploadHandler, hdec, if_true]
  simp only [puCore, hsplit, parseInt64Go_formatInt E hE1 hE2, writeOutcome]
  by_cases ht : t > E
  · simp [ht]
  · simp [ht]

/-! Claim theorems. -/

/-- Claim C1, counterexample: the boundary is wrong and a bar byte in the
filename breaks verification.  A token issued at time 0 with expiry 300 and
presented at exactly time 300 still passes every check and proceeds to the
write (the claim says it must fail with Expired at or after the expiry),
and an unmodified token for the filename a|b.txt presented well before its
expiry is rejected as URL expired instead of verifying. -/
theorem presign_expiry_boundary_cex :
    presignedUploadHandler hmac0 fs1 300
      (presignToken hmac0 (presignPath (str ("alice")) (str ("a.txt"))) 300) (some (str ("hi")))
      = PUOutcome.saved (str ("storage/alice/a.txt")) (str ("hi")) ∧
    presignedUploadHandler hmac0 fs1 10
      (presignToken hmac0 (presignPath (str ("alice")) (str ("a|b.txt"))) 300) (some (str ("hi")))
      = PUOutcome.expired := by
  decide

/-- Claim C1, amended: for every client id and filename accepted by the
issuer whose derived path and signature bytes contain no bar byte, the
issuer returns the token for the derived path with expiry now plus 300
seconds; presenting it unmodified at any time up to and including the
expiry passes decode, expiry and signature checks and proceeds to the
write, and presenting it strictly after the expiry fails with Expired. -/
theorem presign_roundtrip_verify (hmacF : Bytes → Bytes) (fs : FS)
    (client filename body : Bytes) (now t : Int)
    (hc : sanitizeClient client ≠ []) (hf : filepathBase filename ≠ [])
    (hp256 : ∀ b ∈ presignPath client filename, b < 256)
    (hpbar : bar ∉ presignPath client filename)
    (hs256 : ∀ b ∈ hmacF (presignMsg (presignPath client filename) (now + 300)), b < 256)
    (hsbar : bar ∉ hmacF (presignMsg (presignPath client filename) (now + 300)))
    (hE1 : -(2 ^ 63) ≤ now + 300) (hE2 : now + 300 < 2 ^ 63) :
    presignHandler hmacF now client filename =
      some (presignToken hmacF (presignPath client filename) (now + 300)) ∧
    (t ≤ now + 300 →
      presignedUploadHandler hmacF fs t
        (presignToken hmacF (presignPath client filename) (now + 300)) (some body) =
        writeOutcome fs (presignPath client filename) body) ∧
    (t > now + 300 →
      presignedUploadHandler hmacF fs t
        (presignToken hmacF (presignPath client filename) (now + 300)) (some body) =
        PUOutcome.expired) := by
  refine ⟨?_, ?_, ?_⟩
  · simp only [presignHandler]
    rw [if_neg (by push_neg; exact ⟨hc, hf⟩)]
  · intro ht
    rw [puHandler_token_eq hmacF fs _ body _ t hp256 hpbar hs256 hsbar hE1 hE2]
    rw [if_neg (by omega)]
  · intro ht
    rw [puHandler_token_eq hmacF fs _ body _ t hp256 hpbar hs256 hsbar hE1 hE2]
    rw [if_pos ht]

/-- Claim C1, witness for the amended theorem at a concrete instance. -/
theorem presign_roundtrip_verify_witness :
    presignedUploadHandler hmac0 fs1 299
      (presignToken hmac0 (presignPath (str ("alice")) (str ("a.txt"))) (0 + 300))
      (some (str ("hi")))
      = writeOutcome fs1 (presignPath (str ("alice")) (str ("a.txt"))) (str ("hi")) ∧
    presignedUploadHandler hmac0 fs1 301
      (presignToken hmac0 (presignPath (str ("alice")) (str ("a.txt"))) (0 + 300))
      (some (str ("hi")))
      = PUOutcome.expired :=
  ⟨(presign_roundtrip_verify hmac0 fs1 (str ("alice")) (str ("a.txt")) (str ("hi")) 0 299
      (by decide) (by decide) (by decide) (by decide) (by decide) (by decide)
      (by decide) (by decide)).2.1 (by decide),
   (presign_roundtrip_verify hmac0 fs1 (str ("alice")) (str ("a.txt")) (str ("hi")) 0 301
      (by decide) (by decide) (by decide) (by decide) (by decide) (by decide)
      (by decide) (by decide)).2.2 (by decide)⟩

/-- Claim C2, counterexample: the public gate performs no registry lookup
and answers the wildcard.  With a registry in which the client mallory does
not exist, CheckOrigin indeed answers none, yet the gate does not fail
Unauthorized; it sets Access-Control-Allow-Origin to the wildcard, which
differs from the registered origin of the existing client, and its allowed
methods are GET, PUT, OPTIONS rather than GET, OPTIONS. -/
theorem publicCORS_wildcard_cex :
    CheckOrigin reg0 (str ("mallory")) = none ∧
    ¬ (withPublicCORS Method.GET).outcome = GateOutcome.unauthorized ∧
    (withPublicCORS Method.GET).headers =
      some ⟨str ("*"), str ("GET, PUT, OPTIONS"), str ("Content-Type")⟩ ∧
    ¬ str ("*") = str ("http://shop.example") ∧
    (withPublicCORS Method.GET).invoked = true := by
  decide

/-- Claim C2, amended: the public gate takes no client identifier and no
registry; for every method it unconditionally sets the wildcard origin,
methods GET, PUT, OPTIONS and header Content-Type, short-circuits an
OPTIONS request with no content, and otherwise invokes the handler; it
never fails Unauthorized. -/
theorem publicCORS_spec (m : Method) :
    withPublicCORS m =
      ⟨some ⟨str ("*"), str ("GET, PUT, OPTIONS"), str ("Content-Type")⟩,
        if m = Method.OPTIONS then GateOutcome.noContent else GateOutcome.passThrough,
        if m = Method.OPTIONS then false else true⟩ := by
  cases m <;> rfl

/-- Claim C2, witness for the amended theorem at a concrete method. -/
theorem publicCORS_spec_witness :
    withPublicCORS Method.GET =
      ⟨some ⟨str ("*"), str ("GET, PUT, OPTIONS"), str ("Content-Type")⟩,
        if Method.GET = Method.OPTIONS then GateOutcome.noContent else GateOutcome.passThrough,
        if Method.GET = Method.OPTIONS then false else true⟩ :=
  publicCORS_spec Method.GET

/-- Claim C3, code bug: the verifier does not answer MalformedToken.  The
empty token decodes to an empty payload that splits into one field, and
indexing the second field panics; an undecodable token writes the 400
decode error but falls through the missing return into the same panic; a
token whose expiry field is not an integer has its parse error discarded,
the expiry becomes 0, and the verifier answers URL expired instead of a
malformed-token error. -/
theorem presignedUpload_malformed_code_bug :
    presignedUploadHandler hmac0 fs0 0 [] (some (str ("x"))) = PUOutcome.panicked ∧
    presignedUploadHandler hmac0 fs0 0 (str ("!")) (some (str ("x")))
      = PUOutcome.decodeErrorThen PUOutcome.panicked ∧
    presignedUploadHandler hmac0 fs0 1 (base64urlEncode (str ("p|x|s"))) (some (str ("x")))
      = PUOutcome.expired := by
  decide

/-- Claim C4, counterexample: after the expiry the verifier answers Expired
even for a tampered signature, because the expiry check runs first.  The
tag 66 differs from the recomputed MAC, yet presenting the tampered token
one second after its expiry yields Expired, not InvalidSignature. -/
theorem tampered_sig_after_expiry_cex :
    presignedUploadHandler hmac0 fs1 301
      (base64urlEncode (presignMsg (str ("storage/alice/a.txt")) 300 ++ bar :: [66]))
      (some (str ("hi"))) = PUOutcome.expired ∧
    ¬ [66] = hmac0 (presignMsg (str ("storage/alice/a.txt")) 300) := by
  decide

/-- Claim C4, amended: a token presented at or before its expiry whose
signature field (the third bar-separated field of the payload) differs from
the MAC recomputed over path and expiry fails with InvalidSignature; this
covers both a modified signature and a signature presented with a
different path. -/
theorem tampered_token_invalid_signature (hmacF : Bytes → Bytes) (fs : FS)
    (p s body : Bytes) (E t : Int)
    (hp256 : ∀ b ∈ p, b < 256) (hpbar : bar ∉ p) (hs256 : ∀ b ∈ s, b < 256)
    (hE1 : -(2 ^ 63) ≤ E) (hE2 : E < 2 ^ 63) (ht : t ≤ E)
    (hdiff : ¬ (splitByte bar s).headI = hmacF (presignMsg p E)) :
    presignedUploadHandler hmacF fs t
      (base64urlEncode (presignMsg p E ++ bar :: s)) (some body) =
      PUOutcome.invalidSignature := by
  obtain ⟨s1, srest, hs1⟩ := List.exists_cons_of_ne_nil (splitByte_ne_nil bar s)
  have hh : (splitByte bar s).headI = s1 := by rw [hs1]; rfl
  have hd1 : ¬ s1 = hmacF (presignMsg p E) := hh ▸ hdiff
  have hpayload256 : ∀ b ∈ presignMsg p E ++ bar :: s, b < 256 := by
    intro b hb
    rcases List.mem_append.mp hb with h | h
    · rcases List.mem_append.mp h with h1 | h1
      · exact hp256 b h1
      · rcases List.mem_cons.mp h1 with h2 | h2
        · rw [h2]; decide
        · exact formatInt_lt_256 E b h2
    · rcases List.mem_cons.mp h with h2 | h2
      · rw [h2]; decide
      · exact hs256 b h2
  have hdec : base64urlDecode (base64urlEncode (presignMsg p E ++ bar :: s)) =
      (presignMsg p E ++ bar :: s, true) := b64_roundtrip _ hpayload256
  have hsplit : splitByte bar (presignMsg p E ++ bar :: s) =
      p :: formatInt E :: s1 :: srest := by
    have h := splitBar_payload (p := p) (e := formatInt E) (r := s) hpbar
      (bar_not_mem_formatInt E)
    rw [hs1] at h
    rw [presignMsg, List.append_assoc]
    exact h
  simp only [presignedUploadHandler, hdec, if_true]
  simp only [puCore, hsplit, parseInt64Go_formatInt E hE1 hE2]
  rw [if_neg (show ¬ t > E by omega)]
  simp [hd1]

/-- Claim C4, witness for the amended theorem at a concrete instance. -/
theorem tampered_token_invalid_signature_witness :
    presignedUploadHandler hmac0 fs1 5
      (base64urlEncode (presignMsg (str ("storage/alice/a.txt")) 300 ++ bar :: [66]))
      (some (str ("hi"))) = PUOutcome.invalidSignature :=
  tampered_token_invalid_signature hmac0 fs1 (str ("storage/alice/a.txt")) [66] (str ("hi"))
    300 5 (by decide) (by decide) (by decide) (by decide) (by decide) (by decide) (by decide)

/-- Claim C5, counterexample: the presigned-upload path does not create
missing parent directories.  On a filesystem with no directories at all, a
fully valid token for storage/alice/a.txt fails the write with the storage
error instead of creating the directory and succeeding. -/
theorem presigned_no_mkdir_cex :
    presignedUploadHandler hmac0 fs0 0
      (presignToken hmac0 (str ("storage/alice/a.txt")) 300) (some (str ("hi")))
      = PUOutcome.storageError := by
  decide

/-- Claim C5, amended: for every fully verified token the verifier attempts
the write without creating parent directories: when the parent directory of
the target path does not exist the write fails with StorageError, and when
the create is possible the body is saved at the joined path. -/
theorem presigned_write_requires_parent_dir (hmacF : Bytes → Bytes) (fs : FS)
    (p body : Bytes) (E t : Int)
    (hp256 : ∀ b ∈ p, b < 256) (hpbar : bar ∉ p)
    (hs256 : ∀ b ∈ hmacF (presignMsg p E), b < 256) (hsbar : bar ∉ hmacF (presignMsg p E))
    (hE1 : -(2 ^ 63) ≤ E) (hE2 : E < 2 ^ 63) (ht : t ≤ E) :
    (fs.dirExists (filepathDir (joinPath2 (filepathDir p) (filepathBase p))) = false →
      presignedUploadHandler hmacF fs t (presignToken hmacF p E) (some body) =
        PUOutcome.storageError) ∧
    (FS.createOk fs (joinPath2 (filepathDir p) (filepathBase p)) = true →
      presignedUploadHandler hmacF fs t (presignToken hmacF p E) (some body) =
        PUOutcome.saved (joinPath2 (filepathDir p) (filepathBase p)) body) := by
  have key := puHandler_token_eq hmacF fs p body E t hp256 hpbar hs256 hsbar hE1 hE2
  rw [if_neg (show ¬ t > E by omega)] at key
  constructor
  · intro hdir
    rw [key]
    simp [writeOutcome, saveFile, FS.createOk, hdir]
  · intro hok
    rw [key]
    simp [writeOutcome, saveFile, hok]

/-- Claim C5, witness for the amended theorem at a concrete instance: with
no directories the write fails; with the parent present it succeeds. -/
theorem presigned_write_requires_parent_dir_witness :
    presignedUploadHandler hmac0 fs0 0
      (presignToken hmac0 (str ("storage/alice/a.txt")) 300) (some (str ("hi")))
      = PUOutcome.storageError ∧
    presignedUploadHandler hmac0 fs1 0
      (presignToken hmac0 (str ("storage/alice/a.txt")) 300) (some (str ("hi")))
      = PUOutcome.saved
          (joinPath2 (filepathDir (str ("storage/alice/a.txt")))
            (filepathBase (str ("storage/alice/a.txt")))) (str ("hi")) :=
  ⟨(presigned_write_requires_parent_dir hmac0 fs0 (str ("storage/alice/a.txt")) (str ("hi"))
      300 0 (by decide) (by decide) (by decide) (by decide) (by decide) (by decide)
      (by decide)).1 (by decide),
   (presigned_write_requires_parent_dir hmac0 fs1 (str ("storage/alice/a.txt")) (str ("hi"))
      300 0 (by decide) (by decide) (by decide) (by decide) (by decide) (by decide)
      (by decide)).2 (by decide)⟩

/-- Claim C6, counterexample: downloading a missing file without resize
parameters answers 404 Not Found through http.ServeFile, not the 500
storage-error failure the claim states; with a width given, the same
missing file does answer the 500 open error. -/
theorem download_missing_404_cex :
    downloadHandler (fun _ => none) fs0 (str ("alice")) (str ("pic.png")) [] []
      = DLOutcome.notFound ∧
    ¬ DLOutcome.notFound = DLOutcome.openError ∧
    downloadHandler (fun _ => none) fs0 (str ("alice")) (str ("pic.png")) (str ("300")) []
      = DLOutcome.openError := by
  decide

/-- Claim C6, amended: for every download of a file absent from the
filesystem the handler terminates with a defined failure response: the 500
open error when width or height is given, and 404 Not Found otherwise. -/
theorem download_missing_file_fails (imgDecode : Bytes → Option Bytes) (fs : FS)
    (client filename widthStr heightStr : Bytes)
    (hc : sanitizeClient client ≠ []) (hf : filepathBase filename ≠ [])
    (hmiss : fs.files
      (joinPath3 storageRoot (sanitizeClient client) (filepathBase filename)) = none) :
    downloadHandler imgDecode fs client filename widthStr heightStr =
      (if widthStr ≠ [] ∨ heightStr ≠ [] then DLOutcome.openError else DLOutcome.notFound) := by
  simp only [downloadHandler]
  rw [if_neg (by push_neg; exact ⟨hc, hf⟩)]
  by_cases hw : widthStr ≠ [] ∨ heightStr ≠ []
  · rw [if_pos hw, if_pos hw, hmiss]
  · rw [if_neg hw, if_neg hw, hmiss]

/-- Claim C6, witness for the amended theorem at concrete instances. -/
theorem download_missing_file_fails_witness :
    downloadHandler (fun _ => none) fs0 (str ("alice")) (str ("pic.png")) [] [] =
      (if ([] : Bytes) ≠ [] ∨ ([] : Bytes) ≠ [] then DLOutcome.openError
        else DLOutcome.notFound) :=
  download_missing_file_fails (fun _ => none) fs0 (str ("alice")) (str ("pic.png")) [] []
    (by decide) (by decide) (by decide)

/-- Claim C7: on an OPTIONS request the authenticated gate never invokes the
wrapped handler, whatever the client parameter, the key and the registry;
and when the client and key are present and authenticate, it answers the
no-content preflight response. -/
theorem auth_gate_options_never_invokes (reg : Registry) (clientParam apiKey : Bytes) :
    (withAuthAndCORS reg Method.OPTIONS clientParam apiKey).invoked = false ∧
    (∀ origin, ¬ sanitizeClient clientParam = [] → ¬ apiKey = [] →
      CheckAuth reg (sanitizeClient clientParam) apiKey = some origin →
      (withAuthAndCORS reg Method.OPTIONS clientParam apiKey).outcome =
        GateOutcome.noContent) := by
  constructor
  · simp only [withAuthAndCORS]
    by_cases h1 : sanitizeClient clientParam = [] ∨ apiKey = []
    · rw [if_pos h1]
    · rw [if_neg h1]
      cases hca : CheckAuth reg (sanitizeClient clientParam) apiKey with
      | none => rfl
      | some origin => rfl
  · intro origin hc hk hca
    simp only [withAuthAndCORS]
    rw [if_neg (by push_neg; exact ⟨hc, hk⟩), hca]
    rfl

/-- Claim C7, witness at a concrete registry and valid credentials. -/
theorem auth_gate_options_never_invokes_witness :
    (withAuthAndCORS reg0 Method.OPTIONS (str ("alice")) (str ("key1"))).invoked = false ∧
    (withAuthAndCORS reg0 Method.OPTIONS (str ("alice")) (str ("key1"))).outcome =
      GateOutcome.noContent :=
  ⟨(auth_gate_options_never_invokes reg0 (str ("alice")) (str ("key1"))).1,
   (auth_gate_options_never_invokes reg0 (str ("alice")) (str ("key1"))).2
     (str ("http://shop.example")) (by decide) (by decide) (by decide)⟩

/-- Claim C9: a fully verified token is written at exactly the joined
directory and base of the path carried in the token, with no check that
this path lies under the storage root or under any client directory; the
witness below redeems a token for an absolute path outside the storage
root. -/
theorem presigned_upload_writes_token_path (hmacF : Bytes → Bytes) (fs : FS)
    (p body : Bytes) (E t : Int)
    (hp256 : ∀ b ∈ p, b < 256) (hpbar : bar ∉ p)
    (hs256 : ∀ b ∈ hmacF (presignMsg p E), b < 256) (hsbar : bar ∉ hmacF (presignMsg p E))
    (hE1 : -(2 ^ 63) ≤ E) (hE2 : E < 2 ^ 63) (ht : t ≤ E)
    (hok : FS.createOk fs (joinPath2 (filepathDir p) (filepathBase p)) = true) :
    presignedUploadHandler hmacF fs t (presignToken hmacF p E) (some body) =
      PUOutcome.saved (joinPath2 (filepathDir p) (filepathBase p)) body := by
  have key := puHandler_token_eq hmacF fs p body E t hp256 hpbar hs256 hsbar hE1 hE2
  rw [if_neg (show ¬ t > E by omega)] at key
  rw [key]
  simp [writeOutcome, saveFile, hok]

/-- Claim C9, witness: a valid token for the absolute path /etc/cron.d/evil
is written verbatim to that path, which does not start with the storage
root. -/
theorem presigned_upload_writes_token_path_witness :
    presignedUploadHandler hmac0 fs2 0
      (presignToken hmac0 (str ("/etc/cron.d/evil")) 300) (some (str ("x")))
      = PUOutcome.saved
          (joinPath2 (filepathDir (str ("/etc/cron.d/evil")))
            (filepathBase (str ("/etc/cron.d/evil")))) (str ("x")) ∧
    joinPath2 (filepathDir (str ("/etc/cron.d/evil"))) (filepathBase (str ("/etc/cron.d/evil")))
      = str ("/etc/cron.d/evil") ∧
    startsWithB storageRoot (str ("/etc/cron.d/evil")) = false ∧
    startsWithB (str ("storage")) (str ("/etc/cron.d/evil")) = false :=
  ⟨presigned_upload_writes_token_path hmac0 fs2 (str ("/etc/cron.d/evil")) (str ("x")) 300 0
      (by decide) (by decide) (by decide) (by decide) (by decide) (by decide) (by decide)
      (by decide),
   by decide, by decide, by decide⟩

/-- Claim C10: sanitizeClient is idempotent, and on strings made only of
allowed characters it is the identity; hence the double sanitization
performed by the gate and the handlers equals a single one. -/
theorem sanitizeClient_idempotent :
    (∀ s : Bytes, sanitizeClient (sanitizeClient s) = sanitizeClient s) ∧
    (∀ s : Bytes, (∀ c ∈ s, allowedClientChar c = true) → sanitizeClient s = s) := by
  constructor
  · intro s
    simp only [sanitizeClient]
    rw [List.filter_filter]
    simp [Bool.and_self]
  · intro s h
    exact List.filter_eq_self.mpr h

/-- Claim C10, witness at concrete strings. -/
theorem sanitizeClient_idempotent_witness :
    sanitizeClient (sanitizeClient (str ("a/b;c"))) = sanitizeClient (str ("a/b;c")) ∧
    sanitizeClient (str ("ab-C_9")) = str ("ab-C_9") :=
  ⟨sanitizeClient_idempotent.1 (str ("a/b;c")),
   sanitizeClient_idempotent.2 (str ("ab-C_9")) (by decide)⟩

/-! Shape of filepath.Base results and of the directories MkdirAll creates,
used for the upload-path theorem. -/

theorem filepathBase_cases (p : Bytes) :
    filepathBase p = [slash] ∨ (filepathBase p ≠ [] ∧ slash ∉ filepathBase p) := by
  rw [filepathBase]
  by_cases hp : p = []
  · rw [if_pos hp]
    right
    constructor
    · simp
    · simp [slash, dot]
  · rw [if_neg hp]
    by_cases hr : ((stripTrailingSlashesRev p).takeWhile (fun c => !(c == slash))).reverse = []
    · rw [if_pos hr]
      left
      rfl
    · rw [if_neg hr]
      right
      refine ⟨hr, ?_⟩
      intro hs
      rw [List.mem_reverse] at hs
      have := List.mem_takeWhile_imp hs
      simp at this

theorem mkdirAll_storage_dirs (fs : FS) {c0 : Bytes} (hsl : slash ∉ c0) :
    (fs.mkdirAll (str ("storage/") ++ c0)).dirs =
      str ("storage") :: (str ("storage/") ++ c0) :: fs.dirs := by
  show (listPrefixes (splitSlash (str ("storage/") ++ c0))).map joinSlash ++ fs.dirs = _
  have h : splitSlash (str ("storage/") ++ c0) = [str ("storage"), c0] := by
    change splitSlash (str ("storage") ++ slash :: c0) = _
    exact splitSlash_storage_c hsl
  rw [h]
  rfl

/-- Claim C8: sanitization keeps exactly the bytes in the allowed class
(with the stated example), filenames are reduced to their final path
component (with the stated example), and every path actually stored by the
upload handler is the sanitized client directory followed by exactly one
separator-free component — a Base result of a dot, a double dot or a
separator collapses onto an existing directory and the create fails, so no
stored upload path escapes the client directory. -/
theorem upload_path_under_client_dir :
    sanitizeClient (str ("a/b;c")) = str ("abc") ∧
    filepathBase (str ("../../etc/passwd")) = str ("passwd") ∧
    (∀ s : Bytes, ∀ b : Nat, b ∈ sanitizeClient s ↔ b ∈ s ∧ allowedClientChar b = true) ∧
    (∀ fs client filename body p c2,
      uploadHandler fs client filename body = UploadOutcome.saved p c2 →
      ∃ f, f ≠ [] ∧ slash ∉ f ∧
        p = str ("storage/") ++ sanitizeClient client ++ slash :: f) := by
  refine ⟨by decide, by decide, ?_, ?_⟩
  · intro s b
    simp [sanitizeClient, List.mem_filter]
  · intro fs client filename body p c2 hsv
    simp only [uploadHandler] at hsv
    by_cases h1 : sanitizeClient client = [] ∨ filepathBase filename = []
    · rw [if_pos h1] at hsv
      simp at hsv
    · rw [if_neg h1] at hsv
      push_neg at h1
      obtain ⟨hc, hf⟩ := h1
      have hall := sanitizeClient_allowed (s := client)
      have hsl := slash_not_mem_of_allowed hall
      rw [joinPath2_storage_client hc hall] at hsv
      cases body with
      | none => simp at hsv
      | some content =>
        have hdirsmem : (str ("storage/") ++ sanitizeClient client)
            ∈ (fs.mkdirAll (str ("storage/") ++ sanitizeClient client)).dirs := by
          rw [mkdirAll_storage_dirs fs hsl]
          simp
        have hstomem : str ("storage")
            ∈ (fs.mkdirAll (str ("storage/") ++ sanitizeClient client)).dirs := by
          rw [mkdirAll_storage_dirs fs hsl]
          simp
        rcases filepathBase_cases filename with hb | ⟨hbne, hbsl⟩
        · rw [hb] at hsv
          simp only [saveFile] at hsv
          rw [joinPath2_clientdir_slash hc hall] at hsv
          rw [show (fs.mkdirAll (str ("storage/") ++ sanitizeClient client)).createOk
              (str ("storage/") ++ sanitizeClient client) = false from by
            simp [FS.createOk, FS.dirExists, hdirsmem]] at hsv
          simp at hsv
        · by_cases hdot : filepathBase filename = [dot]
          · rw [hdot] at hsv
            simp only [saveFile] at hsv
            rw [joinPath2_clientdir_dot hc hall] at hsv
            rw [show (fs.mkdirAll (str ("storage/") ++ sanitizeClient client)).createOk
                (str ("storage/") ++ sanitizeClient client) = false from by
              simp [FS.createOk, FS.dirExists, hdirsmem]] at hsv
            simp at hsv
          · by_cases hdd : filepathBase filename = [dot, dot]
            · rw [hdd] at hsv
              simp only [saveFile] at hsv
              rw [joinPath2_clientdir_dotdot hc hall] at hsv
              rw [show (fs.mkdirAll (str ("storage/") ++ sanitizeClient client)).createOk
                  (str ("storage")) = false from by
                simp [FS.createOk, FS.dirExists, hstomem]] at hsv
              simp at hsv
            · refine ⟨filepathBase filename, hbne, hbsl, ?_⟩
              simp only [saveFile] at hsv
              rw [joinPath2_clientdir_file hc hall hbsl hbne hdot hdd] at hsv
              by_cases hok : (fs.mkdirAll (str ("storage/") ++ sanitizeClient client)).createOk
                  (str ("storage/") ++ sanitizeClient client ++ slash ::
                    filepathBase filename) = true
              · rw [if_pos hok] at hsv
                simp only [UploadOutcome.saved.injEq] at hsv
                exact hsv.1.symm
              · rw [if_neg hok] at hsv
                simp at hsv

/-- Claim C8, witness: a traversal filename stores directly under the
client directory. -/
theorem upload_path_under_client_dir_witness :
    ∃ f, f ≠ [] ∧ slash ∉ f ∧
      str ("storage/alice/x.txt") =
        str ("storage/") ++ sanitizeClient (str ("alice")) ++ slash :: f :=
  upload_path_under_client_dir.2.2.2 fs0 (str ("alice")) (str ("../../x.txt"))
    (some (str ("hi"))) (str ("storage/alice/x.txt")) (str ("hi")) (by decide)

end Handradi
